import Mathlib

/-!
Verification of the poarder podcast downloader (src/src/main.rs) against its
natural-language specification.  The Rust source is shallowly embedded:

* `Episode` mirrors the `Episode` struct; the `NaiveDateTime` field is
  represented by its unix timestamp (an `Int`), which is the only part of the
  value the program ever consumes (`datetime.timestamp()`).
* `episode_to_filename` mirrors the function of the same name; the chained
  `str::replace` calls (all on single-character patterns) are embedded as
  `replaceChar` over the character list of the title.
* The commit step (the body of the `for_each` closure in `main`) is embedded
  as `commitOps`, which records the sequence of filesystem operations the code
  attempts, given the payload length, the flags, and the success or failure
  of each I/O call.
* The orchestration-time skip check in the worker closure is embedded as
  `workerFetches`.
* `parse_rss` and `parse_item` are embedded over abstract event streams: the
  quick_xml reader is an external library, so its output is modelled as a
  list of events, and the two functions are the exact folds the Rust loops
  perform over those events.  The chrono RFC-2822 parser is likewise external
  and is passed in as a parameter `pdt`.
* The concurrency window created by `futures::stream::buffer_unordered` is
  external library code; it is modelled from the spec as a transition system
  (`PoolStep`).
-/

/-- Mirror of the `Episode` struct: `url`, `title`, the publish datetime
(represented by its unix timestamp), and the raw item XML fragment. -/
structure Episode where
  url : String
  title : String
  datetime : Int
  raw : String
  deriving Repr, DecidableEq

/-- The double-quote character, U+0022. -/
def dquote : Char := Char.ofNat 34

/-- The single-quote character, U+0027. -/
def squote : Char := Char.ofNat 39

/-- Embedding of Rust `str::replace` for a single-character pattern `c`
replaced by the character list `rep`: every occurrence of `c` is replaced,
all other characters are kept. -/
def replaceChar (c : Char) (rep : List Char) : List Char → List Char
  | [] => []
  | x :: xs => if x = c then rep ++ replaceChar c rep xs else x :: replaceChar c rep xs

/-- The title sanitization pipeline of `episode_to_filename` on character
lists: the six chained `.replace` calls of the source, in source order
(space, colon, slash, double quote, single quote, asterisk). -/
def sanitizeChars (l : List Char) : List Char :=
  replaceChar '*' ['a']
    (replaceChar squote []
      (replaceChar dquote []
        (replaceChar '/' ['-']
          (replaceChar ':' ['-']
            (replaceChar ' ' ['_'] l)))))

/-- The title sanitization pipeline of `episode_to_filename` on strings. -/
def sanitize (s : String) : String :=
  String.mk (sanitizeChars s.data)

/-- Mirror of `episode_to_filename`: returns
`(name_with_part_ext, name_with_true_ext)`, each built as
`timestamp.to_string() + "-" + sanitized-title + extension`. -/
def episode_to_filename (episode : Episode) : String × String :=
  let name := sanitize episode.title
  let name_with_part_ext := toString episode.datetime ++ "-" ++ name ++ ".part"
  let name_with_true_ext := toString episode.datetime ++ "-" ++ name ++ ".mp3"
  (name_with_part_ext, name_with_true_ext)

/-- The per-character mapping the spec describes for sanitization: space to
underscore, colon to hyphen, slash to hyphen, quotes removed, asterisk to
the letter a, everything else unchanged. -/
def sanChar (c : Char) : List Char :=
  if c = ' ' then ['_']
  else if c = ':' then ['-']
  else if c = '/' then ['-']
  else if c = dquote then []
  else if c = squote then []
  else if c = '*' then ['a']
  else [c]

/-- A filesystem operation the commit step attempts, with the outcome of the
underlying call where the code inspects it. -/
inductive FsOp where
  | openTmp (ok : Bool)
  | writeTmp (ok : Bool)
  | renameTmpFinal (ok : Bool)
  deriving Repr, DecidableEq

/-- Embedding of the commit step (the `Ok(Ok(b))` arm of the `for_each`
closure in `main`, lines 127-165): given the payload length, the
`replace_existing` flag, whether the final path exists at commit time, and
the outcomes of the open, write and rename calls, it returns the list of
filesystem operations the code attempts, in order.  The source returns
immediately on an empty payload, re-checks
`replace_existing || !output_path_true.exists()`, returns after a failed
open, and after a failed write merely logs and still calls `fs::rename`. -/
def commitOps (dataLen : Nat) (replaceExisting existsFinal : Bool)
    (openOk writeOk renameOk : Bool) : List FsOp :=
  if dataLen = 0 then []
  else if replaceExisting || !existsFinal then
    if openOk then
      [FsOp.openTmp true, FsOp.writeTmp writeOk, FsOp.renameTmpFinal renameOk]
    else
      [FsOp.openTmp false]
  else []

/-- Embedding of the orchestration-time check in the worker closure
(lines 105-119): the worker performs the network fetch exactly when
`replace_existing || !output_path_true.exists()`; otherwise it returns the
episode with an empty byte payload. -/
def workerFetches (replaceExisting existsFinal : Bool) : Bool :=
  replaceExisting || !existsFinal

/-- The result of one step of `element.attributes()` in the enclosure branch
of `parse_item`: either an attribute whose value decoded (`value = some v`)
or failed to decode (`value = none`), or an iteration error. -/
inductive AttrResult where
  | ok (key : String) (value : Option String)
  | err
  deriving Repr, DecidableEq

/-- One event of the inner quick_xml reader that `parse_item` runs over an
item fragment.  A `start` event carries the element name, the text
`read_text` would return for it (`none` when `read_text` fails), and the
attribute iteration results. -/
inductive ItemEvent where
  | start (name : String) (txt : Option String) (attrs : List AttrResult)
  | eof
  | err (pos : Nat)
  | other
  deriving Repr, DecidableEq

/-- The failures `parse_item` can return, mirroring the boxed error values of
the source: a reader error with its position, a `read_text` failure, a
date-parse failure, an attribute failure, or the `RssFormatError` built from
the raw fragment when required fields are missing. -/
inductive ItemError where
  | xmlError (pos : Nat)
  | textError
  | dateError
  | attrError
  | missingFields (raw : String)
  deriving Repr, DecidableEq

/-- Embedding of the attribute loop in the enclosure branch: iterates the
attribute results in order, propagates the first error (the `?` operators),
and records the value of each `url` attribute seen (last one wins). -/
def readUrlAttrs : List AttrResult → Option String → Except Unit (Option String)
  | [], url => .ok url
  | AttrResult.err :: _, _ => .error ()
  | AttrResult.ok key val :: rest, url =>
    if key = "url" then
      match val with
      | some v => readUrlAttrs rest (some v)
      | none => .error ()
    else readUrlAttrs rest url

/-- Embedding of the event loop of `parse_item` (lines 235-282): folds over
the fragment events carrying the three optional fields, returning early on
reader errors, `read_text` failures and date-parse failures, and otherwise
the field state when the fragment is exhausted.  `pdt` abstracts the external
chrono RFC-2822 parser composed with `naive_local` and `timestamp`. -/
def scanItem (pdt : String → Option Int) :
    List ItemEvent → Option String → Option Int → Option String →
    Except ItemError (Option String × Option Int × Option String)
  | [], title, datetime, url => .ok (title, datetime, url)
  | ItemEvent.eof :: _, title, datetime, url => .ok (title, datetime, url)
  | ItemEvent.err pos :: _, _, _, _ => .error (ItemError.xmlError pos)
  | ItemEvent.start name txt attrs :: rest, title, datetime, url =>
    if name = "title" then
      match txt with
      | some t => scanItem pdt rest (some t) datetime url
      | none => .error ItemError.textError
    else if name = "pubDate" then
      match txt with
      | some t =>
        match pdt t with
        | some d => scanItem pdt rest title (some d) url
        | none => .error ItemError.dateError
      | none => .error ItemError.textError
    else if name = "enclosure" then
      match readUrlAttrs attrs url with
      | .ok u => scanItem pdt rest title datetime u
      | .error _ => .error ItemError.attrError
    else scanItem pdt rest title datetime url
  | ItemEvent.other :: rest, title, datetime, url => scanItem pdt rest title datetime url

/-- Embedding of `parse_item` (lines 235-290): runs the event loop from the
all-unset state, then either reports `RssFormatError` carrying the raw
fragment when any of the three fields is still unset, or constructs the
`Episode`. -/
def parse_item (pdt : String → Option Int) (item_xml : String)
    (events : List ItemEvent) : Except ItemError Episode :=
  match scanItem pdt events none none none with
  | .error e => .error e
  | .ok (title, datetime, url) =>
    match url, title, datetime with
    | some u, some t, some d =>
      .ok { url := u, title := t, datetime := d, raw := item_xml }
    | _, _, _ => .error (ItemError.missingFields item_xml)

/-- One event of the top-level quick_xml reader that `parse_rss` runs over
the feed document.  A `startItem` event is a `Start` event named `item`; it
carries `none` when `read_text` on the item fails (the source then panics
through `.expect`), and otherwise the returned text together with the events
the inner reader yields on it. -/
inductive XmlEvent where
  | startItem (content : Option (String × List ItemEvent))
  | eof
  | err (pos : Nat)
  | other
  deriving Repr, DecidableEq

/-- The observable outcome of `parse_rss`: the episode list, a returned
document-level error carrying the logged byte position, or a panic (the
`.expect` on `read_text`). -/
inductive RssResult where
  | ok (episodes : List Episode)
  | docError (pos : Nat)
  | panicked
  deriving Repr, DecidableEq

/-- Embedding of the event loop of `parse_rss` (lines 204-232): on a start
of an `item` element, reads its text (panicking when that fails) and runs
`parse_item`, appending on success and only logging on failure; breaks on
end of document, returning the accumulated list; returns the error on a
reader error.  An exhausted event list behaves like end of document (the
reader yields `Eof` from then on). -/
def parseRssLoop (pdt : String → Option Int) :
    List XmlEvent → List Episode → RssResult
  | [], acc => .ok acc
  | XmlEvent.eof :: _, acc => .ok acc
  | XmlEvent.err pos :: _, _ => .docError pos
  | XmlEvent.startItem none :: _, _ => .panicked
  | XmlEvent.startItem (some (txt, events)) :: rest, acc =>
    match parse_item pdt txt events with
    | .ok episode => parseRssLoop pdt rest (acc ++ [episode])
    | .error _ => parseRssLoop pdt rest acc
  | XmlEvent.other :: rest, acc => parseRssLoop pdt rest acc

/-- Embedding of `parse_rss` (lines 204-232): the event loop started with an
empty accumulator. -/
def parse_rss (pdt : String → Option Int) (events : List XmlEvent) : RssResult :=
  parseRssLoop pdt events []

/-- The item fragments of a feed event stream, in document order, up to the
first terminating event. -/
def feedItems : List XmlEvent → List (String × List ItemEvent)
  | [] => []
  | XmlEvent.eof :: _ => []
  | XmlEvent.err _ :: _ => []
  | XmlEvent.startItem none :: _ => []
  | XmlEvent.startItem (some p) :: rest => p :: feedItems rest
  | XmlEvent.other :: rest => feedItems rest

/-- A feed event stream whose top level is well formed: the scan reaches end
of document without a reader error and without an undecodable item text. -/
def goodFeed : List XmlEvent → Bool
  | [] => true
  | XmlEvent.eof :: _ => true
  | XmlEvent.err _ :: _ => false
  | XmlEvent.startItem none :: _ => false
  | XmlEvent.startItem (some _) :: rest => goodFeed rest
  | XmlEvent.other :: rest => goodFeed rest

/-- How the top-level scan of a feed event stream terminates: end of
document, a reader error at a position, or an undecodable item text. -/
inductive FeedTerm where
  | okEnd
  | errAt (pos : Nat)
  | panicAt
  deriving Repr, DecidableEq

/-- The first terminating event of a feed event stream. -/
def firstTerm : List XmlEvent → FeedTerm
  | [] => FeedTerm.okEnd
  | XmlEvent.eof :: _ => FeedTerm.okEnd
  | XmlEvent.err pos :: _ => FeedTerm.errAt pos
  | XmlEvent.startItem none :: _ => FeedTerm.panicAt
  | XmlEvent.startItem (some _) :: rest => firstTerm rest
  | XmlEvent.other :: rest => firstTerm rest

/-- The state of the download window: episodes still queued (in feed
document order), episodes whose fetch is in flight, and completed
episodes. -/
structure PoolState where
  pending : List Nat
  inflight : List Nat
  done : List Nat
  deriving Repr, DecidableEq

/-- Modelled from the spec: the admission discipline of the external
`futures::stream::buffer_unordered(task_count)` combinator (line 122), which
is library code not present in this repository.  Following the spec, the
next queued episode is admitted only while fewer than `K` fetches are in
flight, and any in-flight fetch may complete at any time, in any order. -/
inductive PoolStep (K : Nat) : PoolState → PoolState → Prop
  | launch (e : Nat) (rest : List Nat) (s : PoolState)
      (hp : s.pending = e :: rest) (hk : s.inflight.length < K) :
      PoolStep K s ⟨rest, e :: s.inflight, s.done⟩
  | complete (e : Nat) (s : PoolState) (he : e ∈ s.inflight) :
      PoolStep K s ⟨s.pending, s.inflight.erase e, e :: s.done⟩

/-- The states the download window can reach from a given start state by
admission and completion steps. -/
inductive PoolReachable (K : Nat) (init : PoolState) : PoolState → Prop
  | refl : PoolReachable K init init
  | step {s s' : PoolState} : PoolReachable K init s → PoolStep K s s' →
      PoolReachable K init s'

/-- The start state of a run: all episodes queued, nothing in flight,
nothing done. -/
def poolInit (episodes : List Nat) : PoolState :=
  { pending := episodes, inflight := [], done := [] }

/-- A concrete stand-in for the external RFC-2822 date parser, used to
evaluate the parser embedding on closed inputs: it accepts exactly the
string `D`, giving timestamp 100. -/
def pdtDemo : String → Option Int :=
  fun s => if s = "D" then some 100 else none

/-- A valid item fragment: title `Hello`, parsable date, enclosure with a
url attribute. -/
def itemGood1 : List ItemEvent :=
  [ItemEvent.start "title" (some "Hello") [],
   ItemEvent.start "pubDate" (some "D") [],
   ItemEvent.start "enclosure" none [AttrResult.ok "url" (some "http-a")],
   ItemEvent.eof]

/-- A malformed item fragment: title and date present but no enclosure url. -/
def itemBad : List ItemEvent :=
  [ItemEvent.start "title" (some "NoUrl") [],
   ItemEvent.start "pubDate" (some "D") [],
   ItemEvent.eof]

/-- A second valid item fragment: title `World`, parsable date, enclosure
with a url attribute. -/
def itemGood2 : List ItemEvent :=
  [ItemEvent.start "title" (some "World") [],
   ItemEvent.start "pubDate" (some "D") [],
   ItemEvent.start "enclosure" none [AttrResult.ok "url" (some "http-b")],
   ItemEvent.eof]

/-- A well-formed feed event stream with one malformed item between two
valid ones. -/
def feedDemo : List XmlEvent :=
  [XmlEvent.other,
   XmlEvent.startItem (some ("r1", itemGood1)),
   XmlEvent.startItem (some ("rb", itemBad)),
   XmlEvent.startItem (some ("r2", itemGood2)),
   XmlEvent.eof]

lemma replaceChar_append (c : Char) (rep : List Char) (l₁ l₂ : List Char) :
    replaceChar c rep (l₁ ++ l₂) = replaceChar c rep l₁ ++ replaceChar c rep l₂ := by
  induction l₁ with
  | nil => rfl
  | cons x xs ih =>
    by_cases h : x = c <;> simp [replaceChar, h, ih]

lemma sanitizeChars_append (l₁ l₂ : List Char) :
    sanitizeChars (l₁ ++ l₂) = sanitizeChars l₁ ++ sanitizeChars l₂ := by
  simp [sanitizeChars, replaceChar_append]

lemma sanitizeChars_single (x : Char) : sanitizeChars [x] = sanChar x := by
  by_cases h1 : x = ' '
  · subst h1; decide
  by_cases h2 : x = ':'
  · subst h2; decide
  by_cases h3 : x = '/'
  · subst h3; decide
  by_cases h4 : x = dquote
  · subst h4; decide
  by_cases h5 : x = squote
  · subst h5; decide
  by_cases h6 : x = '*'
  · subst h6; decide
  simp [sanitizeChars, replaceChar, sanChar, h1, h2, h3, h4, h5, h6]

lemma sanitizeChars_flatMap (l : List Char) : sanitizeChars l = l.flatMap sanChar := by
  induction l with
  | nil => rfl
  | cons x xs ih =>
    have hx : x :: xs = [x] ++ xs := rfl
    rw [hx, sanitizeChars_append, sanitizeChars_single, ih]
    simp

/-- C1: the claim says the rename from the temporary path to the final path
is never attempted after a failed write.  The code contradicts this: after
`file.write(&data)` fails it only logs the error and still calls
`fs::rename`, so the partially-written temporary file is moved to the final
path.  Evaluated here on a 5-byte payload with a successful open, a failed
write and a successful rename: the attempted operation list still ends with
the rename. -/
theorem commit_renames_after_failed_write :
    commitOps 5 false false true false true =
      [FsOp.openTmp true, FsOp.writeTmp false, FsOp.renameTmpFinal true] := by
  rfl

/-- C2 counterexample: the claim states that the title `Ep 1: A/B *`
sanitizes to `Ep_1--A-Ba`; on the code it sanitizes to `Ep_1-_A-B_a` (the
two spaces adjacent to the colon and the asterisk become underscores), so
the claimed string is wrong. -/
theorem sanitize_spec_example_refuted :
    sanitize "Ep 1: A/B *" ≠ "Ep_1--A-Ba" := by
  decide

/-- C2 amended: title sanitization maps each character exactly as specified
(space to underscore, colon to hyphen, slash to hyphen, double and single
quotes removed, asterisk to the letter a, every other character unchanged),
and the title `Ep 1: A/B *` sanitizes to `Ep_1-_A-B_a`. -/
theorem sanitize_charwise_and_example :
    (∀ s : String, sanitize s = String.mk (s.data.flatMap sanChar)) ∧
    sanitize "Ep 1: A/B *" = "Ep_1-_A-B_a" := by
  constructor
  · intro s
    simp [sanitize, sanitizeChars_flatMap]
  · decide

/-- C5: when `replace_existing` is false and the final file already exists,
the worker performs no network fetch, and the commit step, recomputing the
same condition, attempts no filesystem operation, whatever the payload
length and the I/O outcomes would have been. -/
theorem skip_when_final_exists :
    workerFetches false true = false ∧
    ∀ dataLen openOk writeOk renameOk,
      commitOps dataLen false true openOk writeOk renameOk = [] := by
  refine ⟨rfl, ?_⟩
  intro dataLen openOk writeOk renameOk
  by_cases h : dataLen = 0 <;> simp [commitOps, h]

/-- C6: `episode_to_filename` is a deterministic pure function of the
publish timestamp and the title: episodes agreeing on those two fields get
the identical name pair, and the pair is the base name
`timestamp-sanitizedTitle` with extension `.part` for the temporary name and
`.mp3` for the final name. -/
theorem episode_to_filename_det (e₁ e₂ : Episode)
    (ht : e₁.title = e₂.title) (hd : e₁.datetime = e₂.datetime) :
    episode_to_filename e₁ = episode_to_filename e₂ ∧
    episode_to_filename e₁ =
      (toString e₁.datetime ++ "-" ++ sanitize e₁.title ++ ".part",
       toString e₁.datetime ++ "-" ++ sanitize e₁.title ++ ".mp3") := by
  simp [episode_to_filename, ht, hd]

/-- C6 witness: two episodes sharing timestamp 7 and title `A B` but
differing in url and raw fragment get the identical name pair of the
specified shape. -/
theorem episode_to_filename_det_witness :
    episode_to_filename ⟨"u", "A B", 7, "r"⟩ = episode_to_filename ⟨"v", "A B", 7, "s"⟩ ∧
    episode_to_filename ⟨"u", "A B", 7, "r"⟩ =
      (toString (7 : Int) ++ "-" ++ sanitize "A B" ++ ".part",
       toString (7 : Int) ++ "-" ++ sanitize "A B" ++ ".mp3") :=
  episode_to_filename_det ⟨"u", "A B", 7, "r"⟩ ⟨"v", "A B", 7, "s"⟩ rfl rfl

/-- C7: a zero-length payload makes the commit step a no-op: no temporary
file is opened or written and no rename is attempted, whatever the flags and
I/O outcomes. -/
theorem commit_noop_on_empty_payload :
    ∀ replaceExisting existsFinal openOk writeOk renameOk,
      commitOps 0 replaceExisting existsFinal openOk writeOk renameOk = [] := by
  intro replaceExisting existsFinal openOk writeOk renameOk
  rfl

lemma parseRssLoop_good (pdt : String → Option Int) (evs : List XmlEvent) :
    ∀ acc : List Episode, goodFeed evs = true →
      parseRssLoop pdt evs acc =
        RssResult.ok (acc ++ (feedItems evs).filterMap
          (fun p => (parse_item pdt p.1 p.2).toOption)) := by
  induction evs with
  | nil => intro acc h; simp [parseRssLoop, feedItems]
  | cons e rest ih =>
    intro acc h
    cases e with
    | eof => simp [parseRssLoop, feedItems]
    | err pos => simp [goodFeed] at h
    | other =>
      have h' : goodFeed rest = true := by simpa [goodFeed] using h
      simp [parseRssLoop, feedItems, ih acc h']
    | startItem content =>
      cases content with
      | none => simp [goodFeed] at h
      | some p =>
        obtain ⟨txt, events⟩ := p
        have h' : goodFeed rest = true := by simpa [goodFeed] using h
        cases hp : parse_item pdt txt events with
        | ok episode =>
          simp [parseRssLoop, hp, feedItems, Except.toOption, ih (acc ++ [episode]) h']
        | error e' =>
          simp [parseRssLoop, hp, feedItems, Except.toOption, ih acc h']

/-- C3: on a feed whose top level is well formed, `parse_rss` returns
exactly the episodes of the items that `parse_item` accepts, in feed
document order; a rejected item is omitted without aborting the rest. -/
theorem parse_rss_exact_accepted_items (pdt : String → Option Int)
    (evs : List XmlEvent) (h : goodFeed evs = true) :
    parse_rss pdt evs =
      RssResult.ok ((feedItems evs).filterMap
        (fun p => (parse_item pdt p.1 p.2).toOption)) := by
  simpa [parse_rss] using parseRssLoop_good pdt evs [] h

/-- C3 witness: the demo feed with one malformed item between two valid
items parses to exactly the accepted episodes, and there are exactly two of
them. -/
theorem parse_rss_exact_accepted_items_witness :
    parse_rss pdtDemo feedDemo =
      RssResult.ok ((feedItems feedDemo).filterMap
        (fun p => (parse_item pdtDemo p.1 p.2).toOption)) ∧
    ((feedItems feedDemo).filterMap
        (fun p => (parse_item pdtDemo p.1 p.2).toOption)).length = 2 :=
  ⟨parse_rss_exact_accepted_items pdtDemo feedDemo (by decide), by decide⟩

/-- C4: `parse_item` builds an `Episode` only when the scan of the fragment
found all three of title, date and url; when the fragment is exhausted with
any of them unset, it returns the structured `RssFormatError` carrying the
raw fragment, so no partially-valid `Episode` is ever constructed. -/
theorem parse_item_all_or_nothing (pdt : String → Option Int) (raw : String)
    (evs : List ItemEvent) (t : Option String) (d : Option Int) (u : Option String)
    (h : scanItem pdt evs none none none = Except.ok (t, d, u)) :
    (t = none ∨ d = none ∨ u = none →
        parse_item pdt raw evs = Except.error (ItemError.missingFields raw)) ∧
    (∀ t0 d0 u0, t = some t0 → d = some d0 → u = some u0 →
        parse_item pdt raw evs =
          Except.ok { url := u0, title := t0, datetime := d0, raw := raw }) := by
  constructor
  · intro hnone
    rcases hnone with h1 | h1 | h1
    · subst h1; cases d <;> cases u <;> simp [parse_item, h]
    · subst h1; cases t <;> cases u <;> simp [parse_item, h]
    · subst h1; cases t <;> cases d <;> simp [parse_item, h]
  · intro t0 d0 u0 ht hd hu
    subst ht; subst hd; subst hu
    simp [parse_item, h]

/-- C4 witness: on the malformed demo fragment (title and date present, no
enclosure url) the scan ends with the url unset and `parse_item` returns the
`RssFormatError` carrying the raw fragment. -/
theorem parse_item_all_or_nothing_witness :
    parse_item pdtDemo "frag" itemBad =
      Except.error (ItemError.missingFields "frag") :=
  (parse_item_all_or_nothing pdtDemo "frag" itemBad
      (some "NoUrl") (some 100) none rfl).1
    (Or.inr (Or.inr rfl))

lemma parseRssLoop_docError_iff (pdt : String → Option Int) (evs : List XmlEvent) :
    ∀ (acc : List Episode) (pos : Nat),
      parseRssLoop pdt evs acc = RssResult.docError pos ↔
        firstTerm evs = FeedTerm.errAt pos := by
  induction evs with
  | nil => intro acc pos; simp [parseRssLoop, firstTerm]
  | cons e rest ih =>
    intro acc pos
    cases e with
    | eof => simp [parseRssLoop, firstTerm]
    | err p => simp [parseRssLoop, firstTerm]
    | other => simp [parseRssLoop, firstTerm, ih acc pos]
    | startItem content =>
      cases content with
      | none => simp [parseRssLoop, firstTerm]
      | some p =>
        obtain ⟨txt, events⟩ := p
        cases hp : parse_item pdt txt events with
        | ok episode => simp [parseRssLoop, hp, firstTerm, ih (acc ++ [episode]) pos]
        | error e' => simp [parseRssLoop, hp, firstTerm, ih acc pos]

/-- C8: `parse_rss` returns a document-level failure, carrying the position
where parsing stopped, exactly when the top-level scan terminates in a
reader error; in particular an item that `parse_item` rejects never makes
`parse_rss` return a failure. -/
theorem parse_rss_docerror_iff_toplevel (pdt : String → Option Int)
    (evs : List XmlEvent) (pos : Nat) :
    parse_rss pdt evs = RssResult.docError pos ↔
      firstTerm evs = FeedTerm.errAt pos := by
  simpa [parse_rss] using parseRssLoop_docError_iff pdt evs [] pos

lemma parseRssLoop_panicked_iff (pdt : String → Option Int) (evs : List XmlEvent) :
    ∀ acc : List Episode,
      parseRssLoop pdt evs acc = RssResult.panicked ↔
        firstTerm evs = FeedTerm.panicAt := by
  induction evs with
  | nil => intro acc; simp [parseRssLoop, firstTerm]
  | cons e rest ih =>
    intro acc
    cases e with
    | eof => simp [parseRssLoop, firstTerm]
    | err p => simp [parseRssLoop, firstTerm]
    | other => simp [parseRssLoop, firstTerm, ih acc]
    | startItem content =>
      cases content with
      | none => simp [parseRssLoop, firstTerm]
      | some p =>
        obtain ⟨txt, events⟩ := p
        cases hp : parse_item pdt txt events with
        | ok episode => simp [parseRssLoop, hp, firstTerm, ih (acc ++ [episode])]
        | error e' => simp [parseRssLoop, hp, firstTerm, ih acc]

/-- C10: when the top-level scan reaches an item whose inner text cannot be
decoded (the `.expect` on `read_text`), `parse_rss` panics rather than
returning a document-level error or skipping the item. -/
theorem parse_rss_panics_on_undecodable_item (pdt : String → Option Int)
    (evs : List XmlEvent) (h : firstTerm evs = FeedTerm.panicAt) :
    parse_rss pdt evs = RssResult.panicked := by
  have := parseRssLoop_panicked_iff pdt evs []
  simpa [parse_rss] using this.2 h

/-- C10 witness: a feed whose single item has undecodable inner text makes
`parse_rss` panic. -/
theorem parse_rss_panics_on_undecodable_item_witness :
    parse_rss pdtDemo [XmlEvent.startItem none, XmlEvent.eof] = RssResult.panicked :=
  parse_rss_panics_on_undecodable_item pdtDemo
    [XmlEvent.startItem none, XmlEvent.eof] (by decide)

lemma poolStep_preserves_cap (K : Nat) {s s' : PoolState}
    (hs : s.inflight.length ≤ K) (h : PoolStep K s s') :
    s'.inflight.length ≤ K := by
  cases h with
  | launch e rest s hp hk => simpa using hk
  | complete e s he =>
    calc (s.inflight.erase e).length ≤ s.inflight.length :=
          (List.erase_sublist e s.inflight).length_le
      _ ≤ K := hs

/-- C9: with concurrency limit `K`, at no reachable instant of the download
window are more than `K` fetches in flight; moreover whenever fewer than `K`
are in flight the next queued episode can be admitted, and any in-flight
fetch can complete at any time (no constraint on completion order). -/
theorem pool_inflight_le_K (K : Nat) (episodes : List Nat) (s : PoolState)
    (_hK : 1 ≤ K) (h : PoolReachable K (poolInit episodes) s) :
    s.inflight.length ≤ K ∧
    (∀ e rest, s.pending = e :: rest → s.inflight.length < K →
        PoolStep K s ⟨rest, e :: s.inflight, s.done⟩) ∧
    (∀ e, e ∈ s.inflight →
        PoolStep K s ⟨s.pending, s.inflight.erase e, e :: s.done⟩) := by
  refine ⟨?_, ?_, ?_⟩
  · induction h with
    | refl => simp [poolInit]
    | step hr hstep ih => exact poolStep_preserves_cap K ih hstep
  · intro e rest hp hk
    exact PoolStep.launch e rest s hp hk
  · intro e he
    exact PoolStep.complete e s he

/-- C9 witness: with `K = 1` and two queued episodes, after admitting the
first, completing it and admitting the second, the reached state has at most
one fetch in flight. -/
theorem pool_inflight_le_K_witness :
    (⟨[], [2], [1]⟩ : PoolState).inflight.length ≤ 1 :=
  (pool_inflight_le_K 1 [1, 2] ⟨[], [2], [1]⟩ (by decide)
    (PoolReachable.step
      (PoolReachable.step
        (PoolReachable.step PoolReachable.refl
          (PoolStep.launch 1 [2] (poolInit [1, 2]) rfl (by decide)))
        (PoolStep.complete 1 ⟨[2], [1], []⟩ (by decide)))
      (PoolStep.launch 2 [] ⟨[2], [], [1]⟩ rfl (by decide)))).1
